import Mathlib

/-!
Verification of the input-mgr crate (tosc-rs/teletype).

Shallow embedding of src/crates/input-mgr/src/lib.rs:
bytes are Nat values of u8, fixed arrays are lists, u8 arithmetic wraps
modulo 256 exactly where the source performs u8 addition, and fallible
functions return the updated state together with an optional error, so an
early error return corresponds to handing back the unchanged state.
-/

namespace Teletype

/-- Source tag of a line (enum Source in lib.rs). -/
inductive Source where
  | Local : Source
  | Remote : Source
deriving DecidableEq, Repr

/-- Error type of line operations (enum LineError in lib.rs). -/
inductive LineError where
  | Full : LineError
  | InvalidChar : LineError
  | ReadOnly : LineError
  | WriteGap : LineError
deriving DecidableEq, Repr

/-- fn acceptable_ascii: the byte is ASCII and not an ASCII control
character (controls are codes below 0x20 together with 0x7f). -/
def acceptable_ascii (c : Nat) : Bool :=
  decide (c ≤ 127 ∧ ¬ (c < 32 ∨ c = 127))

/-- fn ascii_good: Ok is modelled as none, Err as some. -/
def ascii_good (c : Nat) : Option LineError :=
  if acceptable_ascii c then none else some LineError.InvalidChar

/-- struct Line of lib.rs: fill counter (a u8 value), payload buffer of C
bytes, and the source tag. The const parameter C is passed to each
operation explicitly. -/
structure Line where
  fill : Nat
  buf : List Nat
  status : Source
deriving DecidableEq, Repr

namespace Line

/-- Line::new for capacity C. -/
def new (C : Nat) : Line :=
  { fill := 0, buf := List.replicate C 0, status := Source.Local }

/-- Line::clear. -/
def clear (l : Line) : Line :=
  { l with fill := 0, status := Source.Local }

/-- Line::len (the u8 fill widened to usize). -/
def len (l : Line) : Nat := l.fill

/-- Line::is_empty. -/
def is_empty (l : Line) : Bool := decide (l.fill = 0)

/-- Line::is_full. -/
def is_full (C : Nat) (l : Line) : Bool := decide (l.len ≥ C)

/-- Line::pop. -/
def pop (l : Line) : Line :=
  if l.fill ≠ 0 then { l with fill := l.fill - 1 } else l

/-- Line::as_str, viewed at the byte level: the prefix buf[0..len). -/
def as_str (l : Line) : List Nat := l.buf.take l.len

/-- Line::cap_u8: a const fn that panics (modelled as none) when C exceeds
u8::MAX - 1 = 254, and otherwise returns C as a u8. -/
def cap_u8 (C : Nat) : Option Nat :=
  if C > 254 then none else some C

/-- Line::not_full. -/
def not_full (C : Nat) (l : Line) : Option LineError :=
  if l.is_full C then some LineError.Full else none

/-- Helper for the slice write in Line::extend:
buf[len..][..s.len()].copy_from_slice(s). -/
def writeSeg (buf : List Nat) (start : Nat) (s : List Nat) : List Nat :=
  buf.take start ++ s ++ buf.drop (start + s.length)

/-- Line::extend: batch append of a byte string. The fill update models
the u8 operations fill += s.len() as u8. -/
def extend (C : Nat) (l : Line) (s : List Nat) : Line × Option LineError :=
  if l.len + s.length > C then
    (l, some LineError.Full)
  else if ¬ (s.all acceptable_ascii) then
    (l, some LineError.InvalidChar)
  else
    ({ l with buf := writeSeg l.buf l.len s,
              fill := (l.fill + s.length % 256) % 256 }, none)

/-- Line::overwrite. -/
def overwrite (C : Nat) (l : Line) (pos : Nat) (ovrw : Nat) :
    Line × Option LineError :=
  if pos > l.len ∨ pos ≥ C then
    (l, some LineError.Full)
  else
    match ascii_good ovrw with
    | some e => (l, some e)
    | none =>
      ({ l with buf := l.buf.set pos ovrw,
                fill := if pos = l.len then (l.fill + 1) % 256 else l.fill },
       none)

/-- Line::push. -/
def push (C : Nat) (l : Line) (ins : Nat) : Line × Option LineError :=
  match l.not_full C with
  | some e => (l, some e)
  | none =>
    match ascii_good ins with
    | some e => (l, some e)
    | none =>
      ({ l with buf := l.buf.set l.len ins,
                fill := (l.fill + 1) % 256 }, none)

end Line

/-- fn rot_right of lib.rs: the last element of the slice moves to its
front. On lists: take the final element in front of the rest. -/
def rotr {α : Type} (l : List α) : List α :=
  match l.reverse with
  | [] => []
  | x :: rev => x :: rev.reverse

/-- fn rot_left of lib.rs: the first element of the slice moves to its
back. -/
def rotl {α : Type} (l : List α) : List α :=
  match l with
  | [] => []
  | x :: xs => xs ++ [x]

/-- The sub-slice l[a..b] of a list. -/
def seg {α : Type} (l : List α) (a b : Nat) : List α :=
  (l.drop a).take (b - a)

/-- rot_right applied in place to the sub-slice l[a..b]. -/
def rotRightSeg {α : Type} (l : List α) (a b : Nat) : List α :=
  l.take a ++ rotr (seg l a b) ++ l.drop b

/-- rot_left applied in place to the sub-slice l[a..b]. -/
def rotLeftSeg {α : Type} (l : List α) (a b : Nat) : List α :=
  l.take a ++ rotl (seg l a b) ++ l.drop b

/-- struct Bricks of lib.rs: the index permutation together with the three
zone boundaries. The const parameter L is passed to each operation
explicitly. Zones in idx order: [0, user_editable_end) local editing,
[user_editable_end, inco_editable_end) remote editing,
[inco_editable_end, history_end) history, [history_end, L) free. -/
structure Bricks where
  idx_buf : List Nat
  user_editable_end : Nat
  inco_editable_end : Nat
  history_end : Nat
deriving DecidableEq, Repr

namespace Bricks

/-- Bricks::new: identity permutation, all boundaries zero. -/
def new (L : Nat) : Bricks :=
  { idx_buf := List.range L
    user_editable_end := 0
    inco_editable_end := 0
    history_end := 0 }

/-- Bricks::ue_front: index of the newest local-editing slot, if any. -/
def ue_front (b : Bricks) : Option Nat :=
  if b.user_editable_end = 0 then none else some (b.idx_buf.getD 0 0)

/-- Bricks::ie_front: index of the newest remote-editing slot, if any. -/
def ie_front (b : Bricks) : Option Nat :=
  if b.inco_editable_end = b.user_editable_end then none
  else some (b.idx_buf.getD b.user_editable_end 0)

/-- Bricks::pop_ue_front of lib.rs: rotate the prefix
idx_buf[..min(history_end + 1, L)] left and shrink every boundary. -/
def pop_ue_front (L : Nat) (b : Bricks) : Bricks :=
  if b.user_editable_end = 0 then b
  else
    { idx_buf := rotLeftSeg b.idx_buf 0 (min (b.history_end + 1) L)
      user_editable_end := b.user_editable_end - 1
      inco_editable_end := b.inco_editable_end - 1
      history_end := b.history_end - 1 }

/-- Bricks::insert_ue_front: fails (none) when everything is already local
editable; otherwise rotates idx_buf[..min(history_end + 1, L)] right,
grows every boundary (saturating at L), and returns idx_buf[0]. -/
def insert_ue_front (L : Nat) (b : Bricks) : Bricks × Option Nat :=
  if b.user_editable_end = L then (b, none)
  else
    let idx := rotRightSeg b.idx_buf 0 (min (b.history_end + 1) L)
    ({ idx_buf := idx
       user_editable_end := min (b.user_editable_end + 1) L
       inco_editable_end := min (b.inco_editable_end + 1) L
       history_end := min (b.history_end + 1) L },
     some (idx.getD 0 0))

/-- Bricks::insert_ie_front: fails (none) when local plus remote editable
zones already cover everything; otherwise rotates
idx_buf[user_editable_end..min(history_end + 1, L)] right, grows the
remote and history boundaries, and returns idx_buf[user_editable_end]. -/
def insert_ie_front (L : Nat) (b : Bricks) : Bricks × Option Nat :=
  if b.inco_editable_end = L then (b, none)
  else
    let idx := rotRightSeg b.idx_buf b.user_editable_end
        (min (b.history_end + 1) L)
    ({ idx_buf := idx
       user_editable_end := b.user_editable_end
       inco_editable_end := min (b.inco_editable_end + 1) L
       history_end := min (b.history_end + 1) L },
     some (idx.getD b.user_editable_end 0))

/-- Bricks::release_ue: submit the local editing zone to history by
rotating idx_buf[..inco_editable_end] right once per remote-editable
entry, then relabel the boundaries. -/
def release_ue (b : Bricks) : Bricks :=
  { idx_buf :=
      (fun l => rotRightSeg l 0 b.inco_editable_end)^[b.inco_editable_end - b.user_editable_end]
        b.idx_buf
    user_editable_end := 0
    inco_editable_end := b.inco_editable_end - b.user_editable_end
    history_end := b.history_end }

/-- Bricks::release_ie: submit the remote editing zone to history by
boundary relabeling only. -/
def release_ie (b : Bricks) : Bricks :=
  { b with inco_editable_end := b.user_editable_end }

/-- Bricks::pop_remote_editable_front of bricks.rs (the engine pop for the
remote zone; lib.rs itself contains no remote pop): rotate
idx_buf[user_editable_end..history_end] left and shrink the remote and
history boundaries. -/
def pop_remote_editable_front (b : Bricks) : Bricks :=
  if b.inco_editable_end = b.user_editable_end then b
  else
    { idx_buf := rotLeftSeg b.idx_buf b.user_editable_end b.history_end
      user_editable_end := b.user_editable_end
      inco_editable_end := b.inco_editable_end - 1
      history_end := b.history_end - 1 }

/-- The list of history indices, newest first (Bricks::iter_history). -/
def history_idx (b : Bricks) : List Nat :=
  seg b.idx_buf b.inco_editable_end b.history_end

end Bricks

/-- The engine operations quantified over in the reachability claims. -/
inductive Op where
  | insert_ue : Op
  | insert_ie : Op
  | pop_ue : Op
  | release_ue : Op
  | release_ie : Op
deriving DecidableEq, Repr

/-- Apply one engine operation, discarding any returned index (a failed
insert leaves the state unchanged, as in the source). -/
def applyOp (L : Nat) (b : Bricks) (o : Op) : Bricks :=
  match o with
  | Op.insert_ue => (b.insert_ue_front L).1
  | Op.insert_ie => (b.insert_ie_front L).1
  | Op.pop_ue => b.pop_ue_front L
  | Op.release_ue => b.release_ue
  | Op.release_ie => b.release_ie

/-- Apply a sequence of engine operations from left to right. -/
def applyOps (L : Nat) (ops : List Op) (b : Bricks) : Bricks :=
  ops.foldl (applyOp L) b

/-- The engine invariant: ordered boundaries within capacity, and idx_buf
a permutation of {0, ..., L-1}. -/
def Bricks.invariant (L : Nat) (b : Bricks) : Prop :=
  b.user_editable_end ≤ b.inco_editable_end ∧
  b.inco_editable_end ≤ b.history_end ∧
  b.history_end ≤ L ∧
  b.idx_buf.Perm (List.range L)

instance (L : Nat) (b : Bricks) : Decidable (Bricks.invariant L b) := by
  unfold Bricks.invariant
  infer_instance

/-! Basic facts about the rotation primitives. -/

theorem rotr_nil {α : Type} : rotr ([] : List α) = [] := rfl

theorem rotr_concat {α : Type} (t : List α) (x : α) :
    rotr (t ++ [x]) = x :: t := by
  simp [rotr, List.reverse_append]

theorem rotr_perm {α : Type} (l : List α) : (rotr l).Perm l := by
  rcases l.eq_nil_or_concat with rfl | ⟨t, x, rfl⟩
  · simp [rotr]
  · rw [List.concat_eq_append, rotr_concat]
    exact (List.perm_append_singleton x t).symm

theorem rotl_perm {α : Type} (l : List α) : (rotl l).Perm l := by
  cases l with
  | nil => simp [rotl]
  | cons x xs => exact List.perm_append_singleton x xs

theorem rotl_rotr {α : Type} (l : List α) : rotl (rotr l) = l := by
  rcases l.eq_nil_or_concat with rfl | ⟨t, x, rfl⟩
  · rfl
  · rw [List.concat_eq_append, rotr_concat]
    simp [rotl]

theorem length_rotr {α : Type} (l : List α) : (rotr l).length = l.length :=
  (rotr_perm l).length_eq

theorem length_rotl {α : Type} (l : List α) : (rotl l).length = l.length :=
  (rotl_perm l).length_eq

/-- Decomposition of a list around the sub-slice [a..b], for a ≤ b. -/
theorem seg_decomp {α : Type} (l : List α) {a b : Nat} (hab : a ≤ b) :
    l.take a ++ seg l a b ++ l.drop b = l := by
  have hb : b = a + (b - a) := by omega
  have hdrop : l.drop b = (l.drop a).drop (b - a) := by
    rw [List.drop_drop, ← hb]
  rw [seg, hdrop, List.append_assoc, List.take_append_drop,
    List.take_append_drop]

theorem rotRightSeg_perm {α : Type} (l : List α) {a b : Nat} (hab : a ≤ b) :
    (rotRightSeg l a b).Perm l := by
  conv_rhs => rw [← seg_decomp l hab]
  rw [rotRightSeg, List.append_assoc, List.append_assoc]
  exact ((rotr_perm (seg l a b)).append_right _).append_left _

theorem rotLeftSeg_perm {α : Type} (l : List α) {a b : Nat} (hab : a ≤ b) :
    (rotLeftSeg l a b).Perm l := by
  conv_rhs => rw [← seg_decomp l hab]
  rw [rotLeftSeg, List.append_assoc, List.append_assoc]
  exact ((rotl_perm (seg l a b)).append_right _).append_left _

/-! Preservation of the engine invariant by each operation. -/

theorem invariant_new (L : Nat) : (Bricks.new L).invariant L := by
  refine ⟨Nat.le_refl 0, Nat.le_refl 0, Nat.zero_le L, ?_⟩
  exact List.Perm.refl _

theorem invariant_insert_ue (L : Nat) (b : Bricks) (h : b.invariant L) :
    ((b.insert_ue_front L).1).invariant L := by
  obtain ⟨h1, h2, h3, h4⟩ := h
  rw [Bricks.insert_ue_front]
  split
  · exact ⟨h1, h2, h3, h4⟩
  · refine ⟨?_, ?_, ?_, ?_⟩
    · simp only; omega
    · simp only; omega
    · simp only; omega
    · simp only
      exact (rotRightSeg_perm b.idx_buf (Nat.zero_le _)).trans h4

theorem invariant_insert_ie (L : Nat) (b : Bricks) (h : b.invariant L) :
    ((b.insert_ie_front L).1).invariant L := by
  obtain ⟨h1, h2, h3, h4⟩ := h
  rw [Bricks.insert_ie_front]
  split
  · exact ⟨h1, h2, h3, h4⟩
  · refine ⟨?_, ?_, ?_, ?_⟩
    · simp only; omega
    · simp only; omega
    · simp only; omega
    · simp only
      exact (rotRightSeg_perm b.idx_buf (by omega)).trans h4

theorem invariant_pop_ue (L : Nat) (b : Bricks) (h : b.invariant L) :
    ((b.pop_ue_front L)).invariant L := by
  obtain ⟨h1, h2, h3, h4⟩ := h
  rw [Bricks.pop_ue_front]
  split
  · exact ⟨h1, h2, h3, h4⟩
  · refine ⟨?_, ?_, ?_, ?_⟩
    · simp only; omega
    · simp only; omega
    · simp only; omega
    · simp only
      exact (rotLeftSeg_perm b.idx_buf (Nat.zero_le _)).trans h4

/-- Iterating a permutation-preserving list transformation preserves
permutation. -/
theorem iterate_perm {α : Type} (f : List α → List α)
    (hf : ∀ l, (f l).Perm l) (n : Nat) (l : List α) :
    (f^[n] l).Perm l := by
  induction n generalizing l with
  | zero => exact List.Perm.refl _
  | succ k ih =>
    rw [Function.iterate_succ_apply]
    exact (ih (f l)).trans (hf l)

theorem invariant_release_ue (L : Nat) (b : Bricks) (h : b.invariant L) :
    (b.release_ue).invariant L := by
  obtain ⟨h1, h2, h3, h4⟩ := h
  refine ⟨Nat.zero_le _, by simp [Bricks.release_ue]; omega, by
    simpa [Bricks.release_ue] using h3, ?_⟩
  simp only [Bricks.release_ue]
  exact (iterate_perm _ (fun l => rotRightSeg_perm l (Nat.zero_le _)) _
    b.idx_buf).trans h4

theorem invariant_release_ie (L : Nat) (b : Bricks) (h : b.invariant L) :
    (b.release_ie).invariant L := by
  obtain ⟨h1, h2, h3, h4⟩ := h
  exact ⟨Nat.le_refl _, by simp [Bricks.release_ie]; omega, by
    simpa [Bricks.release_ie] using h3, h4⟩

theorem invariant_applyOp (L : Nat) (b : Bricks) (o : Op)
    (h : b.invariant L) : (applyOp L b o).invariant L := by
  cases o with
  | insert_ue => exact invariant_insert_ue L b h
  | insert_ie => exact invariant_insert_ie L b h
  | pop_ue => exact invariant_pop_ue L b h
  | release_ue => exact invariant_release_ue L b h
  | release_ie => exact invariant_release_ie L b h

theorem invariant_applyOps (L : Nat) (ops : List Op) (b : Bricks)
    (h : b.invariant L) : (applyOps L ops b).invariant L := by
  induction ops generalizing b with
  | nil => exact h
  | cons o rest ih =>
    rw [applyOps, List.foldl_cons]
    exact ih _ (invariant_applyOp L b o h)

/-- C1: every sequence of engine operations starting from the initial
state yields a Bricks state whose boundaries satisfy
0 ≤ user_editable_end ≤ inco_editable_end ≤ history_end ≤ L and whose
idx_buf is a permutation of {0, ..., L-1}. -/
theorem c1_engine_invariant (L : Nat) (ops : List Op) :
    (applyOps L ops (Bricks.new L)).invariant L :=
  invariant_applyOps L ops (Bricks.new L) (invariant_new L)

/-- C5: Line::extend is all-or-nothing. It writes nothing and returns an
error unless the whole batch fits and every byte is acceptable; the
capacity check (Full) takes precedence over the byte check (InvalidChar);
on success no error is returned. -/
theorem c5_extend_atomic (C : Nat) (l : Line) (s : List Nat) :
    (¬ (l.len + s.length ≤ C ∧ s.all acceptable_ascii = true) →
      Line.extend C l s =
        (l, some (if l.len + s.length ≤ C then LineError.InvalidChar
                  else LineError.Full)))
    ∧ ((l.len + s.length ≤ C ∧ s.all acceptable_ascii = true) →
        (Line.extend C l s).2 = none) := by
  constructor
  · intro h
    rw [Line.extend]
    split
    · next hfull => rw [if_neg (by omega)]
    · next hfit =>
      split
      · next hbad => rw [if_pos (by omega)]
      · next hgood =>
        exact absurd ⟨by omega, by simpa using hgood⟩ h
  · rintro ⟨hfit, hall⟩
    rw [Line.extend, if_neg (by omega), if_neg (by simp [hall])]

/-- Witness for C5 at a concrete input: extending an empty 10-byte line
with bytes including a newline fails with InvalidChar and leaves the line
unchanged. -/
theorem c5_extend_atomic_witness :
    Line.extend 10 (Line.new 10) [104, 101, 10] =
      (Line.new 10, some LineError.InvalidChar) := by
  rw [(c5_extend_atomic 10 (Line.new 10) [104, 101, 10]).1 (by decide)]
  decide

/-- C8 counterexample: overwriting position 2 of an empty line of
capacity 4 with the acceptable byte 97 fails with Full, not with the
WriteGap error stated by the claim. -/
theorem c8_counterexample :
    Line.overwrite 4 (Line.new 4) 2 97 = (Line.new 4, some LineError.Full) ∧
    LineError.Full ≠ LineError.WriteGap := by
  decide

/-- C8 amended: for every line and position with fill < pos < C,
overwrite with an acceptable byte fails with the Full error (the source
reports Full for gap-leaving overwrites; WriteGap is only produced by
insert). -/
theorem c8_overwrite_gap_full (C : Nat) (l : Line) (pos b : Nat)
    (h1 : l.len < pos) (h2 : pos < C) (h3 : acceptable_ascii b = true) :
    Line.overwrite C l pos b = (l, some LineError.Full) := by
  rw [Line.overwrite, if_pos (Or.inl (by omega))]

/-- Witness for the amended C8 at a concrete input. -/
theorem c8_overwrite_gap_full_witness :
    Line.overwrite 4 (Line.new 4) 3 97 = (Line.new 4, some LineError.Full) :=
  c8_overwrite_gap_full 4 (Line.new 4) 3 97 (by decide) (by decide)
    (by decide)

/-- C10: overwrite validates the byte the way push does: at a gap-free
position (pos ≤ fill, pos < C), an unacceptable byte makes overwrite fail
with InvalidChar, leaving the line unchanged. -/
theorem c10_overwrite_invalid (C : Nat) (l : Line) (pos b : Nat)
    (h1 : pos ≤ l.len) (h2 : pos < C) (h3 : acceptable_ascii b = false) :
    Line.overwrite C l pos b = (l, some LineError.InvalidChar) := by
  rw [Line.overwrite, if_neg (by omega)]
  simp [ascii_good, h3]

/-- Witness for C10 at a concrete input: overwriting position 0 of an
empty line with a newline byte fails with InvalidChar. -/
theorem c10_overwrite_invalid_witness :
    Line.overwrite 4 (Line.new 4) 0 10 =
      (Line.new 4, some LineError.InvalidChar) :=
  c10_overwrite_invalid 4 (Line.new 4) 0 10 (by decide) (by decide)
    (by decide)

/-! Positional analysis of the rotations, used for the round-trip and
recycling claims. -/

/-- The engine state reached by a sequence of operations from the initial
state. -/
def reach (L : Nat) (ops : List Op) : Bricks :=
  applyOps L ops (Bricks.new L)

theorem reach_invariant (L : Nat) (ops : List Op) :
    (reach L ops).invariant L :=
  invariant_applyOps L ops (Bricks.new L) (invariant_new L)

theorem seg_zero {α : Type} (l : List α) (b : Nat) : seg l 0 b = l.take b := by
  simp [seg]

theorem rotRightSeg_zero {α : Type} (l : List α) (b : Nat) :
    rotRightSeg l 0 b = rotr (l.take b) ++ l.drop b := by
  simp [rotRightSeg, seg_zero]

theorem rotLeftSeg_zero {α : Type} (l : List α) (b : Nat) :
    rotLeftSeg l 0 b = rotl (l.take b) ++ l.drop b := by
  simp [rotLeftSeg, seg_zero]

theorem take_eq_concat {α : Type} [Inhabited α] (l : List α) (k : Nat)
    (h : k < l.length) :
    l.take (k + 1) = l.take k ++ [l.getD k default] := by
  rw [List.take_succ, List.getElem?_eq_getElem h]
  rw [List.getD_eq_getElem?_getD, List.getElem?_eq_getElem h]
  rfl

theorem getD_drop (l : List Nat) (m n : Nat) :
    (l.drop m).getD n 0 = l.getD (m + n) 0 := by
  rw [List.getD_eq_getElem?_getD, List.getD_eq_getElem?_getD,
    List.getElem?_drop]

/-- A right rotation of the prefix [0, k+1) exposes element k at the
front. -/
theorem rotRightSeg_succ (l : List Nat) (k : Nat) (hk : k < l.length) :
    rotRightSeg l 0 (k + 1) = l.getD k 0 :: (l.take k ++ l.drop (k + 1)) := by
  rw [rotRightSeg_zero, take_eq_concat l k hk, rotr_concat]
  simp

theorem rotRightSeg_head (l : List Nat) (k : Nat) (hk : k < l.length) :
    (rotRightSeg l 0 (k + 1)).getD 0 0 = l.getD k 0 := by
  rw [rotRightSeg_succ l k hk]
  rfl

/-- A left rotation of a range undoes a right rotation of the same
range. -/
theorem rotLeft_rotRight_cancel (l : List Nat) (e : Nat)
    (he : e ≤ l.length) :
    rotLeftSeg (rotRightSeg l 0 e) 0 e = l := by
  have hlen : (rotr (l.take e)).length = e := by
    rw [length_rotr, List.length_take]
    omega
  rw [rotRightSeg_zero, rotLeftSeg_zero, List.take_left' hlen,
    List.drop_left' hlen, rotl_rotr, List.take_append_drop]

/-- A left rotation of the range [0, k+2) after a right rotation of
[0, k+1) swaps the elements at positions k and k+1 and restores all
others. -/
theorem rotLeft_rotRight_swap (l : List Nat) (k : Nat)
    (hk : k + 2 ≤ l.length) :
    rotLeftSeg (rotRightSeg l 0 (k + 1)) 0 (k + 2) =
      l.take k ++ [l.getD (k + 1) 0, l.getD k 0] ++ l.drop (k + 2) := by
  have hk1 : k < l.length := by omega
  have hk2 : k + 1 < l.length := by omega
  have htk : (l.take k).length = k := by
    rw [List.length_take]; omega
  have hdk : l.drop (k + 1) = l.getD (k + 1) 0 :: l.drop (k + 2) := by
    rw [List.drop_eq_getElem_cons hk2, List.getD_eq_getElem?_getD,
      List.getElem?_eq_getElem hk2]
    rfl
  rw [rotRightSeg_succ l k hk1, rotLeftSeg_zero]
  have hA : (l.getD k 0 :: (l.take k ++ l.drop (k + 1))).take (k + 2) =
      l.getD k 0 :: (l.take k ++ [l.getD (k + 1) 0]) := by
    rw [show k + 2 = (k + 1) + 1 from rfl, List.take_succ_cons,
      List.take_append_eq_append_take, htk, List.take_take,
      show (k + 1) ⊓ k = k from by omega,
      show k + 1 - k = 1 from by omega, hdk,
      show (1 : Nat) = 0 + 1 from rfl, List.take_succ_cons, List.take_zero]
  have hB : (l.getD k 0 :: (l.take k ++ l.drop (k + 1))).drop (k + 2) =
      l.drop (k + 2) := by
    rw [show k + 2 = (k + 1) + 1 from rfl, List.drop_succ_cons,
      List.drop_append_eq_append_drop,
      List.drop_eq_nil_of_le (by omega : (l.take k).length ≤ k + 1),
      htk, show k + 1 - k = 1 from by omega, hdk,
      show (1 : Nat) = 0 + 1 from rfl, List.drop_succ_cons, List.drop_zero,
      List.nil_append]
  rw [hA, hB]
  simp [rotl, List.append_assoc]

theorem getD_append_len (l₁ l₂ : List Nat) :
    (l₁ ++ l₂).getD l₁.length 0 = l₂.getD 0 0 := by
  rw [List.getD_eq_getElem?_getD, List.getD_eq_getElem?_getD,
    List.getElem?_append, if_neg (lt_irrefl _), Nat.sub_self]

/-- The element exposed at position u by a right rotation of the range
[u, e) is the element previously at position e - 1. -/
theorem take_eq_concat0 (l : List Nat) (k : Nat) (h : k < l.length) :
    l.take (k + 1) = l.take k ++ [l.getD k 0] :=
  take_eq_concat l k h

theorem getD_append_at (l₁ l₂ : List Nat) (n : Nat) (h : l₁.length = n) :
    (l₁ ++ l₂).getD n 0 = l₂.getD 0 0 := by
  subst h
  exact getD_append_len l₁ l₂

theorem rotRightSeg_getD_at (l : List Nat) (u e : Nat) (hu : u < e)
    (he : e ≤ l.length) :
    (rotRightSeg l u e).getD u 0 = l.getD (e - 1) 0 := by
  have htu : (l.take u).length = u := by
    rw [List.length_take]; omega
  have hlt : e - u - 1 < (l.drop u).length := by
    rw [List.length_drop]; omega
  have hval : (l.drop u).getD (e - u - 1) 0 = l.getD (e - 1) 0 := by
    rw [getD_drop, show u + (e - u - 1) = e - 1 from by omega]
  have hseg : seg l u e =
      (l.drop u).take (e - u - 1) ++ [l.getD (e - 1) 0] := by
    have h3' : seg l u e = (l.drop u).take ((e - u - 1) + 1) := by
      rw [seg]
      congr 1
      omega
    rw [h3', take_eq_concat0 _ _ hlt, hval]
  calc (rotRightSeg l u e).getD u 0
      = (l.take u ++ (rotr (seg l u e) ++ l.drop e)).getD u 0 := by
        rw [rotRightSeg, List.append_assoc]
    _ = (rotr (seg l u e) ++ l.drop e).getD 0 0 :=
        getD_append_at _ _ u htu
    _ = l.getD (e - 1) 0 := by
        rw [hseg, rotr_concat]
        rfl

/-- C2 counterexample: from the reachable initial state of a capacity-2
engine, insert_ue_front followed by pop_ue_front does not restore idx_buf
(the two free entries end up swapped); and from the reachable state with
no free slot, the round trip does not restore history_end. -/
theorem c2_counterexample :
    ((Bricks.pop_ue_front 2 ((reach 2 []).insert_ue_front 2).1).idx_buf ≠
      (reach 2 []).idx_buf) ∧
    ((Bricks.pop_ue_front 2
        ((reach 2 [Op.insert_ue, Op.insert_ie]).insert_ue_front 2).1).history_end ≠
      (reach 2 [Op.insert_ue, Op.insert_ie]).history_end) := by
  decide

/-- C2 amended: for every reachable engine state with room to insert and
at least one free slot (history_end < L), insert_ue_front immediately
followed by pop_ue_front restores user_editable_end, inco_editable_end
and history_end exactly, restores idx_buf on the whole occupied prefix
[0, history_end), and leaves idx_buf a permutation of its prior value;
the free tail of idx_buf is not restored in general (and with no free
slot the round trip shrinks history_end). -/
theorem c2_round_trip_amended (L : Nat) (ops : List Op)
    (hu : (reach L ops).user_editable_end < L)
    (hh : (reach L ops).history_end < L) :
    (Bricks.pop_ue_front L ((reach L ops).insert_ue_front L).1).user_editable_end =
      (reach L ops).user_editable_end ∧
    (Bricks.pop_ue_front L ((reach L ops).insert_ue_front L).1).inco_editable_end =
      (reach L ops).inco_editable_end ∧
    (Bricks.pop_ue_front L ((reach L ops).insert_ue_front L).1).history_end =
      (reach L ops).history_end ∧
    (Bricks.pop_ue_front L ((reach L ops).insert_ue_front L).1).idx_buf.take
        (reach L ops).history_end =
      (reach L ops).idx_buf.take (reach L ops).history_end ∧
    (Bricks.pop_ue_front L ((reach L ops).insert_ue_front L).1).idx_buf.Perm
      (reach L ops).idx_buf := by
  obtain ⟨h1, h2, h3, h4⟩ := reach_invariant L ops
  set s := reach L ops with hs
  have hlen : s.idx_buf.length = L := h4.length_eq.trans (List.length_range L)
  have hins : (s.insert_ue_front L).1 =
      { idx_buf := rotRightSeg s.idx_buf 0 (s.history_end + 1)
        user_editable_end := s.user_editable_end + 1
        inco_editable_end := s.inco_editable_end + 1
        history_end := s.history_end + 1 } := by
    rw [Bricks.insert_ue_front, if_neg (by omega)]
    have e1 : min (s.history_end + 1) L = s.history_end + 1 := by omega
    have e2 : min (s.user_editable_end + 1) L = s.user_editable_end + 1 := by
      omega
    have e3 : min (s.inco_editable_end + 1) L = s.inco_editable_end + 1 := by
      omega
    simp only [e1, e2, e3]
  have hpop : Bricks.pop_ue_front L (s.insert_ue_front L).1 =
      { idx_buf := rotLeftSeg (rotRightSeg s.idx_buf 0 (s.history_end + 1)) 0
          (min (s.history_end + 2) L)
        user_editable_end := s.user_editable_end
        inco_editable_end := s.inco_editable_end
        history_end := s.history_end } := by
    rw [hins, Bricks.pop_ue_front]
    rw [if_neg (by simp)]
    simp only [Nat.add_sub_cancel]
  rw [hpop]
  refine ⟨rfl, rfl, rfl, ?_, ?_⟩
  · rcases Nat.lt_or_ge (s.history_end + 1) L with hcase | hcase
    · have hmin : min (s.history_end + 2) L = s.history_end + 2 := by omega
      rw [hmin, rotLeft_rotRight_swap s.idx_buf s.history_end (by omega)]
      have htk : (s.idx_buf.take s.history_end).length = s.history_end := by
        rw [List.length_take]; omega
      rw [List.append_assoc, List.take_left' htk]
    · have hL : s.history_end + 1 = L := by omega
      have hmin : min (s.history_end + 2) L = s.history_end + 1 := by omega
      rw [hmin, rotLeft_rotRight_cancel s.idx_buf (s.history_end + 1)
        (by omega)]
  · exact (rotLeftSeg_perm _ (Nat.zero_le _)).trans
      (rotRightSeg_perm _ (Nat.zero_le _))

/-- Witness for the amended C2 at the concrete reachable state of an
empty capacity-3 engine. -/
theorem c2_round_trip_amended_witness :
    (Bricks.pop_ue_front 3 ((reach 3 []).insert_ue_front 3).1).user_editable_end =
      (reach 3 []).user_editable_end ∧
    (Bricks.pop_ue_front 3 ((reach 3 []).insert_ue_front 3).1).inco_editable_end =
      (reach 3 []).inco_editable_end ∧
    (Bricks.pop_ue_front 3 ((reach 3 []).insert_ue_front 3).1).history_end =
      (reach 3 []).history_end ∧
    (Bricks.pop_ue_front 3 ((reach 3 []).insert_ue_front 3).1).idx_buf.take
        (reach 3 []).history_end =
      (reach 3 []).idx_buf.take (reach 3 []).history_end ∧
    (Bricks.pop_ue_front 3 ((reach 3 []).insert_ue_front 3).1).idx_buf.Perm
      (reach 3 []).idx_buf :=
  c2_round_trip_amended 3 [] (by decide) (by decide)

/-- C3 counterexample: a reachable capacity-2 state with a non-empty
History zone and one free slot, where a successful insert_ue_front
reclaims slot 1 (the free slot) although the oldest history entry is
slot 0, contradicting the claimed history-first recycling. -/
theorem c3_counterexample :
    (reach 2 [Op.insert_ue, Op.release_ue]).inco_editable_end <
      (reach 2 [Op.insert_ue, Op.release_ue]).history_end ∧
    ((reach 2 [Op.insert_ue, Op.release_ue]).insert_ue_front 2).2 = some 1 ∧
    (reach 2 [Op.insert_ue, Op.release_ue]).idx_buf.getD
      ((reach 2 [Op.insert_ue, Op.release_ue]).history_end - 1) 0 = 0 := by
  decide

/-- C3 amended: whenever insert_ue_front or insert_ie_front succeeds on a
reachable state, the slot it reclaims is the first Free slot
(idx_buf[history_end]) while the Free zone is non-empty, and only once no
slot is free is it the slot at the final position idx_buf[L-1] — the
oldest History entry whenever History is non-empty, so history recycling
is FIFO only after the genuinely free slots are exhausted. -/
theorem c3_recycle_amended (L : Nat) (ops : List Op) :
    ((reach L ops).user_editable_end < L →
      ((reach L ops).history_end < L →
        ((reach L ops).insert_ue_front L).2 =
          some ((reach L ops).idx_buf.getD (reach L ops).history_end 0)) ∧
      ((reach L ops).history_end = L →
        ((reach L ops).insert_ue_front L).2 =
          some ((reach L ops).idx_buf.getD (L - 1) 0))) ∧
    ((reach L ops).inco_editable_end < L →
      ((reach L ops).history_end < L →
        ((reach L ops).insert_ie_front L).2 =
          some ((reach L ops).idx_buf.getD (reach L ops).history_end 0)) ∧
      ((reach L ops).history_end = L →
        ((reach L ops).insert_ie_front L).2 =
          some ((reach L ops).idx_buf.getD (L - 1) 0))) := by
  obtain ⟨h1, h2, h3, h4⟩ := reach_invariant L ops
  set s := reach L ops with hs
  have hlen : s.idx_buf.length = L := h4.length_eq.trans (List.length_range L)
  constructor
  · intro hu
    constructor
    · intro hh
      rw [Bricks.insert_ue_front, if_neg (by omega)]
      simp only
      rw [show min (s.history_end + 1) L = s.history_end + 1 from by omega,
        rotRightSeg_head s.idx_buf s.history_end (by omega)]
    · intro hh
      rw [Bricks.insert_ue_front, if_neg (by omega)]
      simp only
      rw [show min (s.history_end + 1) L = (L - 1) + 1 from by omega,
        rotRightSeg_head s.idx_buf (L - 1) (by omega)]
  · intro hi
    constructor
    · intro hh
      rw [Bricks.insert_ie_front, if_neg (by omega)]
      simp only
      rw [show min (s.history_end + 1) L = s.history_end + 1 from by omega,
        rotRightSeg_getD_at s.idx_buf s.user_editable_end (s.history_end + 1)
          (by omega) (by omega)]
      simp
    · intro hh
      rw [Bricks.insert_ie_front, if_neg (by omega)]
      simp only
      rw [show min (s.history_end + 1) L = L from by omega,
        rotRightSeg_getD_at s.idx_buf s.user_editable_end L (by omega)
          (by omega)]

/-- Witness for the amended C3: on the reachable capacity-2 state with
one history entry and one free slot, the successful local insert reclaims
the slot found at position history_end of idx_buf. -/
theorem c3_recycle_amended_witness :
    ((reach 2 [Op.insert_ue, Op.release_ue]).insert_ue_front 2).2 =
      some ((reach 2 [Op.insert_ue, Op.release_ue]).idx_buf.getD
        (reach 2 [Op.insert_ue, Op.release_ue]).history_end 0) :=
  ((c3_recycle_amended 2 [Op.insert_ue, Op.release_ue]).1 (by decide)).1
    (by decide)

/-- struct RingLine of lib.rs: L line records plus one index engine. The
const parameters L and C are passed to each operation explicitly. -/
structure RingLine where
  lines : List Line
  brick : Bricks
deriving DecidableEq, Repr

namespace RingLine

/-- RingLine::new. -/
def new (L C : Nat) : RingLine :=
  { lines := List.replicate L (Line.new C), brick := Bricks.new L }

/-- RingLine::get_local_first_writeable, returning the updated state
together with the index of the writable line (none models the Rust None
return, raised only when insert_ue_front fails). When a new slot is
inserted, the source clears the reclaimed line and tags it Local before
handing it out. -/
def get_local_first_writeable (L C : Nat) (r : RingLine) :
    RingLine × Option Nat :=
  match r.brick.ue_front with
  | some wr =>
    if (r.lines.getD wr (Line.new C)).is_full C then
      match r.brick.insert_ue_front L with
      | (b, some w) =>
        ({ lines := r.lines.set w
             { (r.lines.getD w (Line.new C)).clear with status := Source.Local }
           brick := b }, some w)
      | (b, none) => ({ lines := r.lines, brick := b }, none)
    else (r, some wr)
  | none =>
    match r.brick.insert_ue_front L with
    | (b, some w) =>
      ({ lines := r.lines.set w
           { (r.lines.getD w (Line.new C)).clear with status := Source.Local }
         brick := b }, some w)
    | (b, none) => ({ lines := r.lines, brick := b }, none)

/-- RingLine::get_remote_first_writeable, symmetric to the local variant
over the remote-editing zone. -/
def get_remote_first_writeable (L C : Nat) (r : RingLine) :
    RingLine × Option Nat :=
  match r.brick.ie_front with
  | some wr =>
    if (r.lines.getD wr (Line.new C)).is_full C then
      match r.brick.insert_ie_front L with
      | (b, some w) =>
        ({ lines := r.lines.set w
             { (r.lines.getD w (Line.new C)).clear with status := Source.Remote }
           brick := b }, some w)
      | (b, none) => ({ lines := r.lines, brick := b }, none)
    else (r, some wr)
  | none =>
    match r.brick.insert_ie_front L with
    | (b, some w) =>
      ({ lines := r.lines.set w
           { (r.lines.getD w (Line.new C)).clear with status := Source.Remote }
         brick := b }, some w)
    | (b, none) => ({ lines := r.lines, brick := b }, none)

/-- RingLine::append_local_char: find or make the writable front line,
then push the byte onto it; a missing writable line is reported as Full.
A failing push writes nothing back. -/
def append_local_char (L C : Nat) (r : RingLine) (c : Nat) :
    RingLine × Option LineError :=
  match get_local_first_writeable L C r with
  | (r1, none) => (r1, some LineError.Full)
  | (r1, some wr) =>
    match Line.push C (r1.lines.getD wr (Line.new C)) c with
    | (l1, none) => ({ lines := r1.lines.set wr l1, brick := r1.brick }, none)
    | (_, some e) => (r1, some e)

/-- RingLine::append_remote_char. -/
def append_remote_char (L C : Nat) (r : RingLine) (c : Nat) :
    RingLine × Option LineError :=
  match get_remote_first_writeable L C r with
  | (r1, none) => (r1, some LineError.Full)
  | (r1, some wr) =>
    match Line.push C (r1.lines.getD wr (Line.new C)) c with
    | (l1, none) => ({ lines := r1.lines.set wr l1, brick := r1.brick }, none)
    | (_, some e) => (r1, some e)

/-- RingLine::pop_local_char: the first line yielded by the mutable
local-editing iterator is lines[idx_buf[0]] (present exactly when
ue_front is); an empty front line is evicted through pop_ue_front, a
non-empty one loses its last byte. -/
def pop_local_char (L C : Nat) (r : RingLine) : RingLine :=
  match r.brick.ue_front with
  | none => r
  | some wr =>
    if (r.lines.getD wr (Line.new C)).is_empty then
      { lines := r.lines, brick := r.brick.pop_ue_front L }
    else
      { lines := r.lines.set wr ((r.lines.getD wr (Line.new C)).pop)
        brick := r.brick }

/-- Modelled from the spec: RingLine::pop_remote_char is invoked by the
repository's exemplar test but absent from src/lib.rs, so it is modelled
from the spec sentence for pop_remote_char symmetrically to
pop_local_char: pop one byte from the remote front line when non-empty,
otherwise evict the empty slot through the engine's remote pop (embedded
from Bricks::pop_remote_editable_front of src/bricks.rs). -/
def pop_remote_char (L C : Nat) (r : RingLine) : RingLine :=
  match r.brick.ie_front with
  | none => r
  | some wr =>
    if (r.lines.getD wr (Line.new C)).is_empty then
      { lines := r.lines, brick := r.brick.pop_remote_editable_front }
    else
      { lines := r.lines.set wr ((r.lines.getD wr (Line.new C)).pop)
        brick := r.brick }

/-- RingLine::submit_local_editing. -/
def submit_local_editing (r : RingLine) : RingLine :=
  { r with brick := r.brick.release_ue }

/-- RingLine::submit_remote_editing. -/
def submit_remote_editing (r : RingLine) : RingLine :=
  { r with brick := r.brick.release_ie }

/-- RingLine::iter_history: the history lines, newest to oldest (every
history index is within range, so the total getD access mirrors the
iterator's checked indexing). -/
def iter_history (r : RingLine) : List Line :=
  r.brick.history_idx.map (fun i => r.lines.getD i (Line.new 0))

end RingLine

/-! Helper facts for the coordinator claims. -/

/-- Case analysis of Line::push: Full exactly when the line is full,
InvalidChar when not full but the byte is unacceptable, success
otherwise; the error cases hand back the unchanged line. -/
theorem push_spec (C : Nat) (l : Line) (c : Nat) :
    (Line.push C l c = (l, some LineError.Full) ∧ l.is_full C = true) ∨
    (Line.push C l c = (l, some LineError.InvalidChar) ∧
      l.is_full C = false ∧ acceptable_ascii c = false) ∨
    ((Line.push C l c).2 = none ∧ l.is_full C = false ∧
      acceptable_ascii c = true) := by
  by_cases h1 : l.is_full C <;> by_cases h2 : acceptable_ascii c <;>
    simp [Line.push, Line.not_full, ascii_good, h1, h2]

/-- A failing insert_ue_front hands back the unchanged engine. -/
theorem insert_ue_none (L : Nat) (b b' : Bricks)
    (h : b.insert_ue_front L = (b', none)) : b' = b := by
  by_cases hL : b.user_editable_end = L
  · rw [Bricks.insert_ue_front, if_pos hL] at h
    injection h with h1 h2
    exact h1.symm
  · rw [Bricks.insert_ue_front, if_neg hL] at h
    injection h with h1 h2
    exact absurd h2 (by simp)

/-- A failing insert_ie_front hands back the unchanged engine. -/
theorem insert_ie_none (L : Nat) (b b' : Bricks)
    (h : b.insert_ie_front L = (b', none)) : b' = b := by
  by_cases hL : b.inco_editable_end = L
  · rw [Bricks.insert_ie_front, if_pos hL] at h
    injection h with h1 h2
    exact h1.symm
  · rw [Bricks.insert_ie_front, if_neg hL] at h
    injection h with h1 h2
    exact absurd h2 (by simp)

/-- A successful insert_ue_front produces the engine of the pair. -/
theorem insert_ue_some (L : Nat) (b b' : Bricks) (w : Nat)
    (h : b.insert_ue_front L = (b', some w)) :
    b' = (b.insert_ue_front L).1 := by
  rw [h]

theorem insert_ie_some (L : Nat) (b b' : Bricks) (w : Nat)
    (h : b.insert_ie_front L = (b', some w)) :
    b' = (b.insert_ie_front L).1 := by
  rw [h]

/-- Reading back the slot just written, totally. -/
theorem getD_set_read (ls : List Line) (w : Nat) (x d : Line) :
    (ls.set w x).getD w d = if w < ls.length then x else d := by
  rw [List.getD_eq_getElem?_getD, List.getElem?_set]
  by_cases h : w < ls.length <;> simp [h]

/-- The line handed out by the insert branch of the first-writeable
lookup is empty, hence not full for a positive capacity. -/
theorem cleared_not_full (C : Nat) (hC : 0 < C) (ls : List Line) (w : Nat)
    (x : Line) (hx : x.fill = 0) :
    ((ls.set w x).getD w (Line.new C)).is_full C = false := by
  rw [getD_set_read]
  by_cases h : w < ls.length <;>
    simp [h, Line.is_full, Line.len, Line.new, hx]
  · omega
  · omega

/-- A first-writeable lookup that reports no slot leaves the coordinator
unchanged. -/
theorem glfw_none (L C : Nat) (r r1 : RingLine)
    (h : RingLine.get_local_first_writeable L C r = (r1, none)) :
    r1 = r := by
  unfold RingLine.get_local_first_writeable at h
  split at h
  next wr hfw =>
    split at h
    · split at h
      next b w hins =>
        injection h with h1 h2
        exact absurd h2 (by simp)
      next b hins =>
        injection h with h1 h2
        rw [← h1, insert_ue_none L _ _ hins]
    · injection h with h1 h2
      exact absurd h2 (by simp)
  next hfw =>
    split at h
    next b w hins =>
      injection h with h1 h2
      exact absurd h2 (by simp)
    next b hins =>
      injection h with h1 h2
      rw [← h1, insert_ue_none L _ _ hins]

theorem grfw_none (L C : Nat) (r r1 : RingLine)
    (h : RingLine.get_remote_first_writeable L C r = (r1, none)) :
    r1 = r := by
  unfold RingLine.get_remote_first_writeable at h
  split at h
  next wr hfw =>
    split at h
    · split at h
      next b w hins =>
        injection h with h1 h2
        exact absurd h2 (by simp)
      next b hins =>
        injection h with h1 h2
        rw [← h1, insert_ie_none L _ _ hins]
    · injection h with h1 h2
      exact absurd h2 (by simp)
  next hfw =>
    split at h
    next b w hins =>
      injection h with h1 h2
      exact absurd h2 (by simp)
    next b hins =>
      injection h with h1 h2
      rw [← h1, insert_ie_none L _ _ hins]

/-- The engine after a first-writeable lookup is the prior engine or the
result of one engine insertion. -/
theorem glfw_brick (L C : Nat) (r r1 : RingLine) (ow : Option Nat)
    (h : RingLine.get_local_first_writeable L C r = (r1, ow)) :
    r1.brick = r.brick ∨ r1.brick = (r.brick.insert_ue_front L).1 := by
  unfold RingLine.get_local_first_writeable at h
  split at h
  next wr hfw =>
    split at h
    · split at h
      next b w hins =>
        injection h with h1 h2
        right
        rw [← h1, insert_ue_some L _ _ _ hins]
      next b hins =>
        injection h with h1 h2
        left
        rw [← h1, insert_ue_none L _ _ hins]
    · injection h with h1 h2
      left
      rw [← h1]
  next hfw =>
    split at h
    next b w hins =>
      injection h with h1 h2
      right
      rw [← h1, insert_ue_some L _ _ _ hins]
    next b hins =>
      injection h with h1 h2
      left
      rw [← h1, insert_ue_none L _ _ hins]

theorem grfw_brick (L C : Nat) (r r1 : RingLine) (ow : Option Nat)
    (h : RingLine.get_remote_first_writeable L C r = (r1, ow)) :
    r1.brick = r.brick ∨ r1.brick = (r.brick.insert_ie_front L).1 := by
  unfold RingLine.get_remote_first_writeable at h
  split at h
  next wr hfw =>
    split at h
    · split at h
      next b w hins =>
        injection h with h1 h2
        right
        rw [← h1, insert_ie_some L _ _ _ hins]
      next b hins =>
        injection h with h1 h2
        left
        rw [← h1, insert_ie_none L _ _ hins]
    · injection h with h1 h2
      left
      rw [← h1]
  next hfw =>
    split at h
    next b w hins =>
      injection h with h1 h2
      right
      rw [← h1, insert_ie_some L _ _ _ hins]
    next b hins =>
      injection h with h1 h2
      left
      rw [← h1, insert_ie_none L _ _ hins]

/-- The line handed out by a successful first-writeable lookup is never
full (for a positive capacity). -/
theorem glfw_some_not_full (L C : Nat) (hC : 0 < C) (r r1 : RingLine)
    (wr : Nat)
    (h : RingLine.get_local_first_writeable L C r = (r1, some wr)) :
    (r1.lines.getD wr (Line.new C)).is_full C = false := by
  unfold RingLine.get_local_first_writeable at h
  split at h
  next wr' hfw =>
    split at h
    · split at h
      next b w hins =>
        injection h with h1 h2
        injection h2 with h2
        subst h2
        rw [← h1]
        exact cleared_not_full C hC _ _ _ rfl
      next b hins =>
        injection h with h1 h2
        exact absurd h2 (by simp)
    · next hful =>
        injection h with h1 h2
        injection h2 with h2
        subst h2
        rw [← h1]
        simpa using hful
  next hfw =>
    split at h
    next b w hins =>
      injection h with h1 h2
      injection h2 with h2
      subst h2
      rw [← h1]
      exact cleared_not_full C hC _ _ _ rfl
    next b hins =>
      injection h with h1 h2
      exact absurd h2 (by simp)

theorem grfw_some_not_full (L C : Nat) (hC : 0 < C) (r r1 : RingLine)
    (wr : Nat)
    (h : RingLine.get_remote_first_writeable L C r = (r1, some wr)) :
    (r1.lines.getD wr (Line.new C)).is_full C = false := by
  unfold RingLine.get_remote_first_writeable at h
  split at h
  next wr' hfw =>
    split at h
    · split at h
      next b w hins =>
        injection h with h1 h2
        injection h2 with h2
        subst h2
        rw [← h1]
        exact cleared_not_full C hC _ _ _ rfl
      next b hins =>
        injection h with h1 h2
        exact absurd h2 (by simp)
    · next hful =>
        injection h with h1 h2
        injection h2 with h2
        subst h2
        rw [← h1]
        simpa using hful
  next hfw =>
    split at h
    next b w hins =>
      injection h with h1 h2
      injection h2 with h2
      subst h2
      rw [← h1]
      exact cleared_not_full C hC _ _ _ rfl
    next b hins =>
      injection h with h1 h2
      exact absurd h2 (by simp)

theorem append_local_full_unchanged (L C : Nat) (r : RingLine) (c : Nat)
    (hC : 0 < C)
    (h : (RingLine.append_local_char L C r c).2 = some LineError.Full) :
    (RingLine.append_local_char L C r c).1 = r := by
  revert h
  unfold RingLine.append_local_char
  split
  next r1 hg =>
    intro _
    exact glfw_none L C r r1 hg
  next r1 wr hg =>
    split
    next l1 hp =>
      intro hcon
      exact absurd hcon (by simp)
    next l1 e hp =>
      intro hcon
      simp only [Option.some.injEq] at hcon
      subst hcon
      have hnf := glfw_some_not_full L C hC r r1 wr hg
      rcases push_spec C (r1.lines.getD wr (Line.new C)) c with
        ⟨hq, hf⟩ | ⟨hq, _, _⟩ | ⟨hq, _, _⟩
      · rw [hf] at hnf
        exact absurd hnf (by simp)
      · rw [hp] at hq
        injection hq with hq1 hq2
        exact absurd hq2 (by simp)
      · rw [hp] at hq
        exact absurd hq (by simp)

theorem append_remote_full_unchanged (L C : Nat) (r : RingLine) (c : Nat)
    (hC : 0 < C)
    (h : (RingLine.append_remote_char L C r c).2 = some LineError.Full) :
    (RingLine.append_remote_char L C r c).1 = r := by
  revert h
  unfold RingLine.append_remote_char
  split
  next r1 hg =>
    intro _
    exact grfw_none L C r r1 hg
  next r1 wr hg =>
    split
    next l1 hp =>
      intro hcon
      exact absurd hcon (by simp)
    next l1 e hp =>
      intro hcon
      simp only [Option.some.injEq] at hcon
      subst hcon
      have hnf := grfw_some_not_full L C hC r r1 wr hg
      rcases push_spec C (r1.lines.getD wr (Line.new C)) c with
        ⟨hq, hf⟩ | ⟨hq, _, _⟩ | ⟨hq, _, _⟩
      · rw [hf] at hnf
        exact absurd hnf (by simp)
      · rw [hp] at hq
        injection hq with hq1 hq2
        exact absurd hq2 (by simp)
      · rw [hp] at hq
        exact absurd hq (by simp)

theorem append_local_invariant (L C : Nat) (r : RingLine) (c : Nat)
    (hb : r.brick.invariant L) :
    ((RingLine.append_local_char L C r c).1).brick.invariant L := by
  unfold RingLine.append_local_char
  split
  next r1 hg =>
    rcases glfw_brick L C r r1 none hg with heq | heq
    · rw [heq]; exact hb
    · rw [heq]; exact invariant_insert_ue L r.brick hb
  next r1 wr hg =>
    have hbr : r1.brick.invariant L := by
      rcases glfw_brick L C r r1 (some wr) hg with heq | heq
      · rw [heq]; exact hb
      · rw [heq]; exact invariant_insert_ue L r.brick hb
    split
    next l1 hp => exact hbr
    next l1 e hp => exact hbr

theorem append_remote_invariant (L C : Nat) (r : RingLine) (c : Nat)
    (hb : r.brick.invariant L) :
    ((RingLine.append_remote_char L C r c).1).brick.invariant L := by
  unfold RingLine.append_remote_char
  split
  next r1 hg =>
    rcases grfw_brick L C r r1 none hg with heq | heq
    · rw [heq]; exact hb
    · rw [heq]; exact invariant_insert_ie L r.brick hb
  next r1 wr hg =>
    have hbr : r1.brick.invariant L := by
      rcases grfw_brick L C r r1 (some wr) hg with heq | heq
      · rw [heq]; exact hb
      · rw [heq]; exact invariant_insert_ie L r.brick hb
    split
    next l1 hp => exact hbr
    next l1 e hp => exact hbr

/-- C4 counterexample: appending the invalid byte 10 (newline) to a fresh
2-by-2 coordinator returns the InvalidChar error, yet the state is not
what it was before the call — the engine has grown a new (cleared)
local-editing line, so a failed operation does not leave all state
unchanged. -/
theorem c4_counterexample :
    (RingLine.append_local_char 2 2 (RingLine.new 2 2) 10).2 =
      some LineError.InvalidChar ∧
    (RingLine.append_local_char 2 2 (RingLine.new 2 2) 10).1 ≠
      RingLine.new 2 2 := by
  decide

/-- C4 amended: for a coordinator whose engine satisfies the invariant
and a positive line capacity, an append_local_char or append_remote_char
that fails with Full leaves the whole state exactly unchanged, and after
any call (in particular any failing call) the engine boundaries and
index permutation still satisfy the invariant; an InvalidChar failure,
however, may leave behind a freshly inserted cleared editing line, so it
does not restore the prior state in general. -/
theorem c4_error_state (L C : Nat) (r : RingLine) (c : Nat)
    (hb : r.brick.invariant L) (hC : 0 < C) :
    ((RingLine.append_local_char L C r c).2 = some LineError.Full →
      (RingLine.append_local_char L C r c).1 = r) ∧
    ((RingLine.append_local_char L C r c).1).brick.invariant L ∧
    ((RingLine.append_remote_char L C r c).2 = some LineError.Full →
      (RingLine.append_remote_char L C r c).1 = r) ∧
    ((RingLine.append_remote_char L C r c).1).brick.invariant L :=
  ⟨append_local_full_unchanged L C r c hC,
   append_local_invariant L C r c hb,
   append_remote_full_unchanged L C r c hC,
   append_remote_invariant L C r c hb⟩

/-- Witness for the amended C4 at a concrete coordinator. -/
theorem c4_error_state_witness :
    ((RingLine.append_local_char 2 2 (RingLine.new 2 2) 10).2 =
        some LineError.Full →
      (RingLine.append_local_char 2 2 (RingLine.new 2 2) 10).1 =
        RingLine.new 2 2) ∧
    ((RingLine.append_local_char 2 2 (RingLine.new 2 2) 10).1).brick.invariant 2 ∧
    ((RingLine.append_remote_char 2 2 (RingLine.new 2 2) 10).2 =
        some LineError.Full →
      (RingLine.append_remote_char 2 2 (RingLine.new 2 2) 10).1 =
        RingLine.new 2 2) ∧
    ((RingLine.append_remote_char 2 2 (RingLine.new 2 2) 10).1).brick.invariant 2 :=
  c4_error_state 2 2 (RingLine.new 2 2) 10 (by decide) (by decide)

/-- The byte string of the text "hello from local!". -/
def local_text : List Nat :=
  [104, 101, 108, 108, 111, 32, 102, 114, 111, 109, 32, 108, 111, 99, 97,
   108, 33]

/-- The byte string of the text "hello from remote!". -/
def remote_text : List Nat :=
  [104, 101, 108, 108, 111, 32, 102, 114, 111, 109, 32, 114, 101, 109,
   111, 116, 101, 33]

/-- The coordinator state of the C6 scenario: a 16-by-80 buffer after
appending the local text byte for byte, then the remote text, then
submit_local_editing, then submit_remote_editing. -/
def c6_state : RingLine :=
  ((remote_text.foldl (fun r c => (RingLine.append_remote_char 16 80 r c).1)
      (local_text.foldl (fun r c => (RingLine.append_local_char 16 80 r c).1)
        (RingLine.new 16 80))).submit_local_editing).submit_remote_editing

set_option maxRecDepth 10000 in
/-- C6: the scenario produces a history whose oldest-to-newest order
(the reverse of the newest-first iteration) is exactly
[(Local, "hello from local!"), (Remote, "hello from remote!")], each line
carrying the stated source tag and content. -/
theorem c6_scenario :
    (c6_state.iter_history.map (fun l => (l.status, l.as_str))).reverse =
      [(Source.Local, local_text), (Source.Remote, remote_text)] := by
  decide

/-- C7: on every coordinator state whose editing zone is non-empty
(ue_front and, symmetrically, ie_front report some slot wr),
pop_local_char (resp. the spec-modelled pop_remote_char) removes exactly
one byte from the front line when it is non-empty — only its fill drops
by one, its bytes and all other lines and the engine are untouched — and
when the front line is empty it instead evicts the slot through the
engine pop for that zone, touching no line at all. -/
theorem c7_pop_char (L C : Nat) (r : RingLine) :
    (∀ wr, r.brick.ue_front = some wr →
      ((r.lines.getD wr (Line.new C)).is_empty = false →
        RingLine.pop_local_char L C r =
          { lines := r.lines.set wr
              { r.lines.getD wr (Line.new C) with
                  fill := (r.lines.getD wr (Line.new C)).fill - 1 }
            brick := r.brick }) ∧
      ((r.lines.getD wr (Line.new C)).is_empty = true →
        RingLine.pop_local_char L C r =
          { lines := r.lines, brick := r.brick.pop_ue_front L })) ∧
    (∀ wr, r.brick.ie_front = some wr →
      ((r.lines.getD wr (Line.new C)).is_empty = false →
        RingLine.pop_remote_char L C r =
          { lines := r.lines.set wr
              { r.lines.getD wr (Line.new C) with
                  fill := (r.lines.getD wr (Line.new C)).fill - 1 }
            brick := r.brick }) ∧
      ((r.lines.getD wr (Line.new C)).is_empty = true →
        RingLine.pop_remote_char L C r =
          { lines := r.lines, brick := r.brick.pop_remote_editable_front })) := by
  constructor
  · intro wr hfw
    constructor
    · intro hne
      unfold RingLine.pop_local_char
      rw [hfw]
      simp only
      rw [if_neg (by simpa using hne)]
      have hpop : (r.lines.getD wr (Line.new C)).pop =
          { r.lines.getD wr (Line.new C) with
              fill := (r.lines.getD wr (Line.new C)).fill - 1 } := by
        rw [Line.pop, if_pos (by simpa [Line.is_empty] using hne)]
      rw [hpop]
    · intro hemp
      unfold RingLine.pop_local_char
      rw [hfw]
      simp only
      rw [if_pos (by simpa using hemp)]
  · intro wr hfw
    constructor
    · intro hne
      unfold RingLine.pop_remote_char
      rw [hfw]
      simp only
      rw [if_neg (by simpa using hne)]
      have hpop : (r.lines.getD wr (Line.new C)).pop =
          { r.lines.getD wr (Line.new C) with
              fill := (r.lines.getD wr (Line.new C)).fill - 1 } := by
        rw [Line.pop, if_pos (by simpa [Line.is_empty] using hne)]
      rw [hpop]
    · intro hemp
      unfold RingLine.pop_remote_char
      rw [hfw]
      simp only
      rw [if_pos (by simpa using hemp)]

set_option maxRecDepth 10000 in
/-- Witness for C7 on the concrete coordinator holding one local byte:
the pop removes exactly that byte and touches nothing else. -/
theorem c7_pop_char_witness :
    RingLine.pop_local_char 2 4
        (RingLine.append_local_char 2 4 (RingLine.new 2 4) 97).1 =
      { lines := (RingLine.append_local_char 2 4 (RingLine.new 2 4) 97).1.lines.set 0
          { (RingLine.append_local_char 2 4 (RingLine.new 2 4) 97).1.lines.getD 0
              (Line.new 4) with
              fill := ((RingLine.append_local_char 2 4
                (RingLine.new 2 4) 97).1.lines.getD 0 (Line.new 4)).fill - 1 }
        brick := (RingLine.append_local_char 2 4 (RingLine.new 2 4) 97).1.brick } :=
  ((c7_pop_char 2 4
      (RingLine.append_local_char 2 4 (RingLine.new 2 4) 97).1).1 0
    (by decide)).1 (by decide)

/-- C9: against the claim, an oversize per-line capacity is not rejected
at construction time. Line::new and RingLine::new never invoke cap_u8, so
a Line of capacity 300 and a RingLine of 2 lines by 300 characters are
created unconditionally, even though cap_u8 itself would be fatal (it
panics, modelled none) at 300. This evaluates the code at the failing
input C = 300. -/
theorem c9_capacity_unchecked :
    (Line.new 300).buf.length = 300 ∧
    (RingLine.new 2 300).lines.length = 2 ∧
    Line.cap_u8 300 = none := by
  refine ⟨?_, ?_, rfl⟩
  · show (List.replicate 300 0).length = 300
    rw [List.length_replicate]
  · show (List.replicate 2 (Line.new 300)).length = 2
    rw [List.length_replicate]

end Teletype
